import Mathlib

/-!
Verification of the QuickPizza k6 load-testing scripts against their
specification.  The repository's own code consists of k6 scripts
(load-profile configuration, setup/teardown hooks and per-iteration
functions); the load-generation engine those scripts drive is an external
tool, so the engine-level components (scheduler, metric sink, threshold
evaluator, lifecycle orchestrator, HTTP exec client) are modelled here
from the specification's words, while the scripts' own functions are
embedded from the source.
-/

/-- An immutable metric observation: metric name and recorded value.
Timestamps and tags are irrelevant to the verified properties and omitted. -/
structure Sample where
  metric : String
  value : ℚ
deriving Repr, DecidableEq

/- ===================== Metric Sink: Trend percentiles ===================== -/

/-- Modelled from the spec: samples for a Trend are kept as an
insertion-ordered sequence; `record` appends at the end (no sorting on the
hot path). The engine's Trend metric store is not part of the repository. -/
structure TrendState where
  samples : List ℚ
deriving Repr, DecidableEq

/-- Modelled from the spec: recording a Trend sample appends it to the
insertion-ordered sequence. -/
def TrendState.record (t : TrendState) (v : ℚ) : TrendState :=
  ⟨t.samples ++ [v]⟩

/-- Sorting the sample sequence by value, performed at query time. -/
def sortedSamples (l : List ℚ) : List ℚ :=
  List.insertionSort (· ≤ ·) l

/-- Modelled from the spec: a percentile request p maps to 0-indexed rank
ceil(p/100 * n) - 1.  In natural-number arithmetic,
ceil(p*n/100) = (p*n + 99) / 100. -/
def percRank (p n : ℕ) : ℕ :=
  (p * n + 99) / 100 - 1

/-- Modelled from the spec: percentile query over a Trend series — the
element at rank `percRank p n` of the series sorted by value at query time. -/
def percentile (p : ℕ) (l : List ℚ) : ℚ :=
  (sortedSamples l).getD (percRank p l.length) 0

/-- Average (mean) of a Trend series. -/
def trendAvg (l : List ℚ) : ℚ :=
  l.sum / l.length

/- ===================== Threshold Evaluator ===================== -/

/-- A threshold expression: a comparison of an aggregate function of a
named metric against a literal bound, as in the scripts' options
(rate<0.01, avg<8, p(95)<500, p(99)<1000). -/
inductive ThresholdExpr where
  | rateLt (bound : ℚ)
  | avgLt (bound : ℚ)
  | percLt (p : ℕ) (bound : ℚ)
deriving Repr, DecidableEq

/-- A threshold: metric name plus expression (abortOnFail is irrelevant to
the verified properties). -/
structure Threshold where
  metricName : String
  expr : ThresholdExpr
deriving Repr, DecidableEq

/-- Per-threshold verdict.  `skipped` is representable but, as proved
below, never produced for a missing metric. -/
inductive ThresholdVerdict where
  | passed
  | failed
  | skipped
deriving Repr, DecidableEq

/-- The values recorded in a sink (a list of samples) for a metric name. -/
def samplesFor (sink : List Sample) (name : String) : List ℚ :=
  (sink.filter (fun s => s.metric == name)).map (fun s => s.value)

/-- Rate aggregate: fraction of recorded observations that were nonzero. -/
def rateAgg (vals : List ℚ) : ℚ :=
  ((vals.filter (fun v => v ≠ 0)).length : ℚ) / (vals.length : ℚ)

/-- Evaluate a threshold expression against a metric's recorded values. -/
def evalExpr (e : ThresholdExpr) (vals : List ℚ) : Bool :=
  match e with
  | .rateLt b => decide (rateAgg vals < b)
  | .avgLt b => decide (trendAvg vals < b)
  | .percLt p b => decide (percentile p vals < b)

/-- Modelled from the spec: the Threshold Evaluator's per-threshold
verdict.  A threshold referencing a metric name never recorded during the
run evaluates to failed (not skipped). -/
def evalThreshold (sink : List Sample) (t : Threshold) : ThresholdVerdict :=
  let vals := samplesFor sink t.metricName
  if vals.isEmpty then .failed
  else if evalExpr t.expr vals then .passed else .failed

/-- Modelled from the spec: `evaluate` returns the overall pass flag and
the per-threshold verdicts; overall passes only when every threshold passes. -/
def evaluate (sink : List Sample) (ts : List Threshold) :
    Bool × List ThresholdVerdict :=
  (ts.all (fun t => evalThreshold sink t == .passed),
   ts.map (evalThreshold sink))

/- ===================== Lifecycle Orchestrator ===================== -/

/-- The final TestResult together with run observables: how many
iterations of the iteration function ran, and whether teardown was
invoked. -/
structure RunOutcome where
  iterationsRun : ℕ
  teardownRan : Bool
  passed : Bool
deriving Repr, DecidableEq

/-- Modelled from the spec: the Lifecycle Orchestrator.  Setup runs once;
an error there transitions directly to Summarized with passed = false, no
executions ever run and teardown is never invoked.  Otherwise the
scheduler runs the planned iterations, teardown always runs, and the
Threshold Evaluator's overall flag decides passed. -/
def runLifecycle (setupRes : Except String Unit) (plannedIterations : ℕ)
    (thresholdsPassed : Bool) : RunOutcome :=
  match setupRes with
  | .error _ => ⟨0, false, false⟩
  | .ok _ => ⟨plannedIterations, true, thresholdsPassed⟩

/-- The scripts' setup function (03.lifecycle / 04.metrics / 05.thresholds /
07.scenarios): GET BASE_URL, throw unless the status is 200. -/
def scriptSetup (status : ℕ) : Except String Unit :=
  if status ≠ 200 then
    .error "Setup failed: got unexpected status code when trying to setup. Exiting."
  else
    .ok ()

/- ===================== Claim C1 ===================== -/

/-- Claim C1: if the setup function raises (the GET to BASE_URL returns a
status other than 200, so setup throws), the test aborts before any
virtual-user execution starts: zero iterations run, the final TestResult
has passed = false, and teardown is never invoked. -/
theorem setup_failure_aborts_run (status plannedIterations : ℕ)
    (thresholdsPassed : Bool) (h : status ≠ 200) :
    (scriptSetup status).isOk = false ∧
    (runLifecycle (scriptSetup status) plannedIterations thresholdsPassed).iterationsRun = 0 ∧
    (runLifecycle (scriptSetup status) plannedIterations thresholdsPassed).passed = false ∧
    (runLifecycle (scriptSetup status) plannedIterations thresholdsPassed).teardownRan = false := by
  simp [scriptSetup, runLifecycle, h, Except.isOk, Except.toBool]

/-- Witness for C1 at status 503 with 40 planned iterations. -/
theorem setup_failure_aborts_run_witness :
    (scriptSetup 503).isOk = false ∧
    (runLifecycle (scriptSetup 503) 40 true).iterationsRun = 0 ∧
    (runLifecycle (scriptSetup 503) 40 true).passed = false ∧
    (runLifecycle (scriptSetup 503) 40 true).teardownRan = false :=
  setup_failure_aborts_run 503 40 true (by decide)

/- ===================== Claim C5 ===================== -/

/-- Claim C5: a threshold whose metric name has zero recorded samples at
evaluation time evaluates to failed — never passed and never skipped —
and consequently the overall test result is failed. -/
theorem missing_metric_threshold_fails (sink : List Sample)
    (ts : List Threshold) (t : Threshold) (hmem : t ∈ ts)
    (hnone : samplesFor sink t.metricName = []) :
    evalThreshold sink t = .failed ∧
    evalThreshold sink t ≠ .passed ∧
    evalThreshold sink t ≠ .skipped ∧
    (evaluate sink ts).1 = false ∧
    .failed ∈ (evaluate sink ts).2 := by
  have hfail : evalThreshold sink t = .failed := by
    simp [evalThreshold, hnone]
  refine ⟨hfail, by simp [hfail], by simp [hfail], ?_, ?_⟩
  · simp only [evaluate, List.all_eq_false]
    exact ⟨t, hmem, by simp [hfail]⟩
  · simpa only [evaluate, List.mem_map] using ⟨t, hmem, hfail⟩

/-- Witness for C5: the 05.thresholds script's quickpizza_ingredients
threshold against a sink that only ever recorded http_req_duration. -/
theorem missing_metric_threshold_fails_witness :
    samplesFor [⟨"http_req_duration", 120⟩] "quickpizza_ingredients" = [] ∧
    (evalThreshold [⟨"http_req_duration", 120⟩] ⟨"quickpizza_ingredients", .avgLt 8⟩ = .failed ∧
     evalThreshold [⟨"http_req_duration", 120⟩] ⟨"quickpizza_ingredients", .avgLt 8⟩ ≠ .passed ∧
     evalThreshold [⟨"http_req_duration", 120⟩] ⟨"quickpizza_ingredients", .avgLt 8⟩ ≠ .skipped ∧
     (evaluate [⟨"http_req_duration", 120⟩] [⟨"quickpizza_ingredients", .avgLt 8⟩]).1 = false ∧
     .failed ∈ (evaluate [⟨"http_req_duration", 120⟩] [⟨"quickpizza_ingredients", .avgLt 8⟩]).2) :=
  ⟨by decide,
   missing_metric_threshold_fails [⟨"http_req_duration", 120⟩]
     [⟨"quickpizza_ingredients", .avgLt 8⟩] ⟨"quickpizza_ingredients", .avgLt 8⟩
     (by decide) (by decide)⟩

/- ===================== Virtual User Scheduler: staged profiles ===================== -/

/-- A stage of a staged LoadProfile: ramp linearly to `target` concurrent
executions over `duration` time units (the scripts' '5s'/'10s'/'20s'
entries, here in abstract time units). -/
structure Stage where
  duration : ℕ
  target : ℕ
deriving Repr, DecidableEq

/-- Modelled from the spec: linear interpolation of the concurrent
execution count from start value `a` to end value `b` over `d` time
units, sampled at elapsed offset `s`. -/
def interp (a b d s : ℕ) : ℕ :=
  if d = 0 then b
  else if a ≤ b then a + (b - a) * s / d
  else a - (a - b) * s / d

/-- Modelled from the spec: the scheduler's target concurrent execution
count for a staged LoadProfile at elapsed time `t`, starting from the
previous stage's end value `prev` (0 for the first stage). -/
def targetAt (prev : ℕ) : List Stage → ℕ → ℕ
  | [], _ => prev
  | st :: rest, t =>
    if t < st.duration then interp prev st.target st.duration t
    else targetAt st.target rest (t - st.duration)

/-- The elapsed time at which stage `i` of a staged profile begins. -/
def stageStart (stages : List Stage) (i : ℕ) : ℕ :=
  ((stages.take i).map Stage.duration).sum

/-- The target value in force when stage `i` begins: the previous stage's
end target, or `prev` (0 at top level) for the first stage. -/
def startTarget (prev : ℕ) : List Stage → ℕ → ℕ
  | [], _ => prev
  | _ :: _, 0 => prev
  | st :: rest, i + 1 => startTarget st.target rest i

/-- Closed form of `targetAt` inside stage `i`: piecewise-linear
interpolation from the stage's start value to its target. -/
theorem targetAt_stage (stages : List Stage) (prev i u : ℕ)
    (hi : i < stages.length) (hu : u < (stages.getD i ⟨0, 0⟩).duration) :
    targetAt prev stages (stageStart stages i + u) =
      interp (startTarget prev stages i) (stages.getD i ⟨0, 0⟩).target
        (stages.getD i ⟨0, 0⟩).duration u := by
  induction stages generalizing prev i with
  | nil => simp at hi
  | cons st rest ih =>
    cases i with
    | zero =>
      simp only [List.getD_cons_zero] at hu ⊢
      simp [targetAt, stageStart, startTarget, hu]
    | succ i =>
      simp only [List.getD_cons_succ] at hu ⊢
      have hstart : stageStart (st :: rest) (i + 1) =
          st.duration + stageStart rest i := by
        simp [stageStart, List.take_succ_cons]
      have hi' : i < rest.length := by simpa using hi
      have hnot : ¬ (stageStart (st :: rest) (i + 1) + u < st.duration) := by
        rw [hstart]; omega
      calc targetAt prev (st :: rest) (stageStart (st :: rest) (i + 1) + u)
          = targetAt st.target rest
              (stageStart (st :: rest) (i + 1) + u - st.duration) := by
            simp [targetAt, hnot]
        _ = targetAt st.target rest (stageStart rest i + u) := by
            rw [hstart]; congr 1; omega
        _ = interp (startTarget st.target rest i) (rest.getD i ⟨0, 0⟩).target
              (rest.getD i ⟨0, 0⟩).duration u := ih st.target i hi' hu
        _ = interp (startTarget prev (st :: rest) (i + 1))
              (rest.getD i ⟨0, 0⟩).target (rest.getD i ⟨0, 0⟩).duration u := by
            simp [startTarget]

/-- At the exact midpoint of a stage of duration 2m, the interpolated
count is within one unit of the arithmetic mean of the endpoints. -/
theorem interp_midpoint (a b m : ℕ) (hm : 0 < m) :
    |(interp a b (2 * m) m : ℚ) - ((a : ℚ) + (b : ℚ)) / 2| ≤ 1 := by
  have hd : (2 * m) ≠ 0 := by omega
  unfold interp
  rw [if_neg hd]
  by_cases hab : a ≤ b
  · rw [if_pos hab]
    have hdiv : (b - a) * m / (2 * m) = (b - a) / 2 :=
      Nat.mul_div_mul_right (b - a) 2 hm
    rw [hdiv]
    have hb : b = a + (b - a) := by omega
    have hmod : 2 * ((b - a) / 2) + (b - a) % 2 = b - a := Nat.div_add_mod _ 2
    have hmodle : (b - a) % 2 ≤ 1 := by omega
    have key : 2 * (((b - a) / 2 : ℕ) : ℚ) =
        ((b - a : ℕ) : ℚ) - (((b - a) % 2 : ℕ) : ℚ) := by
      have hq : ((2 * ((b - a) / 2) + (b - a) % 2 : ℕ) : ℚ) =
          ((b - a : ℕ) : ℚ) := by exact_mod_cast congrArg (fun n : ℕ => (n : ℚ)) hmod
      push_cast at hq
      linarith
    have hcast : ((b : ℕ) : ℚ) = ((a : ℕ) : ℚ) + ((b - a : ℕ) : ℚ) := by
      exact_mod_cast congrArg (fun n : ℕ => (n : ℚ)) hb
    have hmq : (((b - a) % 2 : ℕ) : ℚ) ≤ 1 := by exact_mod_cast hmodle
    have hmq0 : (0 : ℚ) ≤ (((b - a) % 2 : ℕ) : ℚ) := by positivity
    rw [abs_le]
    push_cast at key hcast ⊢
    constructor <;> linarith
  · rw [if_neg hab]
    have hba : b ≤ a := by omega
    have hdiv : (a - b) * m / (2 * m) = (a - b) / 2 :=
      Nat.mul_div_mul_right (a - b) 2 hm
    rw [hdiv]
    have hle : (a - b) / 2 ≤ a := le_trans (Nat.div_le_self _ 2) (by omega)
    have hmod : 2 * ((a - b) / 2) + (a - b) % 2 = a - b := Nat.div_add_mod _ 2
    have hmodle : (a - b) % 2 ≤ 1 := by omega
    have key : 2 * (((a - b) / 2 : ℕ) : ℚ) =
        ((a - b : ℕ) : ℚ) - (((a - b) % 2 : ℕ) : ℚ) := by
      have hq : ((2 * ((a - b) / 2) + (a - b) % 2 : ℕ) : ℚ) =
          ((a - b : ℕ) : ℚ) := by exact_mod_cast congrArg (fun n : ℕ => (n : ℚ)) hmod
      push_cast at hq
      linarith
    have hcast : ((a : ℕ) : ℚ) = ((b : ℕ) : ℚ) + ((a - b : ℕ) : ℚ) := by
      have : a = b + (a - b) := by omega
      exact_mod_cast congrArg (fun n : ℕ => (n : ℚ)) this
    have hmq : (((a - b) % 2 : ℕ) : ℚ) ≤ 1 := by exact_mod_cast hmodle
    have hmq0 : (0 : ℚ) ≤ (((a - b) % 2 : ℕ) : ℚ) := by positivity
    rw [abs_le]
    rw [Nat.cast_sub hle]
    push_cast at key hcast ⊢
    constructor <;> linarith

/- ===================== Claim C2 ===================== -/

/-- Claim C2: for every staged LoadProfile and elapsed time inside a
stage, the scheduler's target concurrent execution count equals the
piecewise-linear interpolation from the previous stage's end target (0
for the first stage) to that stage's target; at the midpoint of a stage
of even duration the count is within one unit of the linear interpolation
between the stage's start and end targets. -/
theorem staged_profile_target (stages : List Stage) (i u m : ℕ)
    (hi : i < stages.length) (hu : u < (stages.getD i ⟨0, 0⟩).duration) :
    targetAt 0 stages (stageStart stages i + u) =
      interp (startTarget 0 stages i) (stages.getD i ⟨0, 0⟩).target
        (stages.getD i ⟨0, 0⟩).duration u ∧
    ((stages.getD i ⟨0, 0⟩).duration = 2 * m → u = m → 0 < m →
      |(targetAt 0 stages (stageStart stages i + u) : ℚ) -
        ((startTarget 0 stages i : ℚ) + ((stages.getD i ⟨0, 0⟩).target : ℚ)) / 2| ≤ 1) := by
  refine ⟨targetAt_stage stages 0 i u hi hu, fun hd hum hm => ?_⟩
  rw [targetAt_stage stages 0 i u hi hu, hd, hum]
  exact interp_midpoint _ _ m hm

/-- Witness for C2: the 02.stages profile (durations in milliseconds) at
the midpoint of the first ramp stage, t = 2500ms, where the target is 10,
exactly the mean of 0 and 20. -/
theorem staged_profile_target_witness :
    targetAt 0 [⟨5000, 20⟩, ⟨20000, 20⟩, ⟨5000, 0⟩]
        (stageStart [⟨5000, 20⟩, ⟨20000, 20⟩, ⟨5000, 0⟩] 0 + 2500) =
      interp (startTarget 0 [⟨5000, 20⟩, ⟨20000, 20⟩, ⟨5000, 0⟩] 0)
        (([⟨5000, 20⟩, ⟨20000, 20⟩, ⟨5000, 0⟩] : List Stage).getD 0 ⟨0, 0⟩).target
        (([⟨5000, 20⟩, ⟨20000, 20⟩, ⟨5000, 0⟩] : List Stage).getD 0 ⟨0, 0⟩).duration 2500 ∧
    |(targetAt 0 [⟨5000, 20⟩, ⟨20000, 20⟩, ⟨5000, 0⟩]
        (stageStart [⟨5000, 20⟩, ⟨20000, 20⟩, ⟨5000, 0⟩] 0 + 2500) : ℚ) -
      ((startTarget 0 [⟨5000, 20⟩, ⟨20000, 20⟩, ⟨5000, 0⟩] 0 : ℚ) +
        ((([⟨5000, 20⟩, ⟨20000, 20⟩, ⟨5000, 0⟩] : List Stage).getD 0 ⟨0, 0⟩).target : ℚ)) / 2| ≤ 1 :=
  ⟨(staged_profile_target [⟨5000, 20⟩, ⟨20000, 20⟩, ⟨5000, 0⟩] 0 2500 2500
      (by decide) (by decide)).1,
   (staged_profile_target [⟨5000, 20⟩, ⟨20000, 20⟩, ⟨5000, 0⟩] 0 2500 2500
      (by decide) (by decide)).2 (by decide) rfl (by decide)⟩

/- ===================== Percentile lemmas ===================== -/

/-- The percentile rank is a valid 0-indexed position for 0 < p ≤ 100 on a
nonempty series. -/
theorem percRank_lt_length (p n : ℕ) (hp : 0 < p) (hp100 : p ≤ 100)
    (hn : 0 < n) : percRank p n < n := by
  have ha1 : 1 ≤ p * n := Nat.mul_pos hp hn
  have ha2 : p * n ≤ 100 * n := Nat.mul_le_mul_right n hp100
  unfold percRank
  generalize h : p * n = a at ha1 ha2 ⊢
  omega

/-- The percentile rank is monotone in the requested percentile. -/
theorem percRank_mono (p q n : ℕ) (hpq : p ≤ q) :
    percRank p n ≤ percRank q n := by
  have h : p * n ≤ q * n := Nat.mul_le_mul_right n hpq
  unfold percRank
  generalize ha : p * n = a at h ⊢
  generalize hb : q * n = b at h ⊢
  omega

/-- Percentile queries are monotone in the requested percentile over any
nonempty series. -/
theorem percentile_mono (l : List ℚ) (p q : ℕ) (hl : l ≠ [])
    (hp : 0 < p) (hpq : p ≤ q) (hq : q ≤ 100) :
    percentile p l ≤ percentile q l := by
  have hn : 0 < l.length := List.length_pos.mpr hl
  have hlen : (sortedSamples l).length = l.length :=
    List.length_insertionSort _ l
  have hrp : percRank p l.length < (sortedSamples l).length := by
    rw [hlen]; exact percRank_lt_length p _ hp (le_trans hpq hq) hn
  have hrq : percRank q l.length < (sortedSamples l).length := by
    rw [hlen]; exact percRank_lt_length q _ (lt_of_lt_of_le hp hpq) hq hn
  have hs : List.Sorted (· ≤ ·) (sortedSamples l) :=
    List.sorted_insertionSort _ l
  unfold percentile
  rw [List.getD_eq_get _ _ hrp, List.getD_eq_get _ _ hrq]
  exact hs.rel_get_of_le (by exact percRank_mono p q l.length hpq)

/-- The natural-number formula (a + 99) / 100 computes the ceiling of the
rational a / 100. -/
theorem nat_ceil_div_100 (a : ℕ) : Nat.ceil ((a : ℚ) / 100) = (a + 99) / 100 := by
  rcases Nat.eq_zero_or_pos a with h | h
  · subst h; norm_num
  · have hk1 : 1 ≤ (a + 99) / 100 := (Nat.one_le_div_iff (by norm_num)).mpr (by omega)
    have h1 : (a + 99) / 100 * 100 ≤ a + 99 := Nat.div_mul_le_self _ 100
    have h2 : a + 99 < ((a + 99) / 100 + 1) * 100 :=
      (Nat.div_lt_iff_lt_mul (by norm_num)).mp (Nat.lt_succ_self _)
    rw [Nat.ceil_eq_iff (by omega)]
    constructor
    · rw [lt_div_iff (by norm_num : (0 : ℚ) < 100)]
      have hlt : ((a + 99) / 100 - 1) * 100 < a := by omega
      calc (((a + 99) / 100 - 1 : ℕ) : ℚ) * 100
          = ((((a + 99) / 100 - 1) * 100 : ℕ) : ℚ) := by push_cast; ring
        _ < (a : ℚ) := by exact_mod_cast hlt
    · rw [div_le_iff (by norm_num : (0 : ℚ) < 100)]
      have hle : a ≤ (a + 99) / 100 * 100 := by omega
      calc (a : ℚ) ≤ (((a + 99) / 100 * 100 : ℕ) : ℚ) := by exact_mod_cast hle
        _ = (((a + 99) / 100 : ℕ) : ℚ) * 100 := by push_cast; ring

/- ===================== Claim C3 ===================== -/

/-- Claim C3 counterexample: for the ten-sample Trend series with nine 0s
and one 100 (nonempty, two distinct values), p90 is 0 while the average
is 10, so the stated chain p99 ≥ p95 ≥ p90 ≥ average fails at its last
link. -/
theorem percentile_above_average_counterexample :
    ([0, 0, 0, 0, 0, 0, 0, 0, 0, 100] : List ℚ) ≠ [] ∧
    (0 : ℚ) ∈ ([0, 0, 0, 0, 0, 0, 0, 0, 0, 100] : List ℚ) ∧
    (100 : ℚ) ∈ ([0, 0, 0, 0, 0, 0, 0, 0, 0, 100] : List ℚ) ∧
    ¬ (percentile 99 ([0, 0, 0, 0, 0, 0, 0, 0, 0, 100] : List ℚ) ≥
         percentile 95 ([0, 0, 0, 0, 0, 0, 0, 0, 0, 100] : List ℚ) ∧
       percentile 95 ([0, 0, 0, 0, 0, 0, 0, 0, 0, 100] : List ℚ) ≥
         percentile 90 ([0, 0, 0, 0, 0, 0, 0, 0, 0, 100] : List ℚ) ∧
       percentile 90 ([0, 0, 0, 0, 0, 0, 0, 0, 0, 100] : List ℚ) ≥
         trendAvg ([0, 0, 0, 0, 0, 0, 0, 0, 0, 100] : List ℚ)) := by
  refine ⟨by decide, by decide, by decide, ?_⟩
  intro ⟨_, _, h90⟩
  have hlt : percentile 90 ([0, 0, 0, 0, 0, 0, 0, 0, 0, 100] : List ℚ) <
      trendAvg ([0, 0, 0, 0, 0, 0, 0, 0, 0, 100] : List ℚ) := by
    norm_num [percentile, trendAvg, sortedSamples, percRank,
      List.insertionSort, List.orderedInsert]
  exact absurd h90 (not_le.mpr hlt)

/-- Claim C3 (amended): for every nonempty Trend series, percentile
queries are monotone in the stated order, p99 ≥ p95 ≥ p90; the further
comparison against the average does not hold in general. -/
theorem percentile_queries_monotonic (l : List ℚ) (hl : l ≠ []) :
    percentile 95 l ≤ percentile 99 l ∧ percentile 90 l ≤ percentile 95 l :=
  ⟨percentile_mono l 95 99 hl (by norm_num) (by norm_num) (by norm_num),
   percentile_mono l 90 95 hl (by norm_num) (by norm_num) (by norm_num)⟩

/-- Witness for C3 (amended) on the ingredient-count series 4, 7, 5. -/
theorem percentile_queries_monotonic_witness :
    percentile 95 ([4, 7, 5] : List ℚ) ≤ percentile 99 ([4, 7, 5] : List ℚ) ∧
    percentile 90 ([4, 7, 5] : List ℚ) ≤ percentile 95 ([4, 7, 5] : List ℚ) :=
  percentile_queries_monotonic [4, 7, 5] (by decide)

/- ===================== Claim C4 ===================== -/

/-- Claim C4: recording a Trend sample appends it to the insertion-ordered
sequence (no sorting at insertion time), and a percentile request p over n
samples returns the element at 0-indexed rank ceil(p/100 * n) - 1 of the
sequence sorted by value at query time. -/
theorem trend_percentile_rank (tr : TrendState) (v : ℚ) (l : List ℚ) (p : ℕ)
    (hp : 0 < p) (hp100 : p ≤ 100) (hl : l ≠ []) :
    (tr.record v).samples = tr.samples ++ [v] ∧
    List.Sorted (· ≤ ·) (sortedSamples l) ∧
    (sortedSamples l).Perm l ∧
    percRank p l.length = Nat.ceil (((p : ℚ) / 100) * (l.length : ℚ)) - 1 ∧
    percRank p l.length < l.length ∧
    percentile p l =
      (sortedSamples l).getD (Nat.ceil (((p : ℚ) / 100) * (l.length : ℚ)) - 1) 0 := by
  have hrank : percRank p l.length =
      Nat.ceil (((p : ℚ) / 100) * (l.length : ℚ)) - 1 := by
    have hmul : ((p : ℚ) / 100) * (l.length : ℚ) = ((p * l.length : ℕ) : ℚ) / 100 := by
      push_cast; ring
    rw [hmul, nat_ceil_div_100]
    rfl
  refine ⟨rfl, List.sorted_insertionSort _ l, List.perm_insertionSort _ l,
    hrank, ?_, ?_⟩
  · exact percRank_lt_length p l.length hp hp100 (List.length_pos.mpr hl)
  · rw [percentile, hrank]

/-- Witness for C4: three recorded ingredient counts, p95; the rank is
ceil(0.95 * 3) - 1 = 2 and the percentile is the sorted element 7. -/
theorem trend_percentile_rank_witness :
    (TrendState.record ⟨[3]⟩ 5).samples = [3] ++ [5] ∧
    List.Sorted (· ≤ ·) (sortedSamples ([4, 7, 5] : List ℚ)) ∧
    (sortedSamples ([4, 7, 5] : List ℚ)).Perm ([4, 7, 5] : List ℚ) ∧
    percRank 95 ([4, 7, 5] : List ℚ).length =
      Nat.ceil (((95 : ℕ) : ℚ) / 100 * (([4, 7, 5] : List ℚ).length : ℚ)) - 1 ∧
    percRank 95 ([4, 7, 5] : List ℚ).length < ([4, 7, 5] : List ℚ).length ∧
    percentile 95 ([4, 7, 5] : List ℚ) =
      (sortedSamples ([4, 7, 5] : List ℚ)).getD
        (Nat.ceil (((95 : ℕ) : ℚ) / 100 * (([4, 7, 5] : List ℚ).length : ℚ)) - 1) 0 :=
  trend_percentile_rank ⟨[3]⟩ 5 [4, 7, 5] 95 (by decide) (by decide) (by decide)

/- ===================== HTTP Exec Client ===================== -/

/-- The ordered latency phases of an HTTP request, as metric names. -/
def phaseNames : List String :=
  ["http_req_blocked", "http_req_connecting", "http_req_tls_handshaking",
   "http_req_sending", "http_req_waiting", "http_req_receiving"]

/-- One timing sample per phase, in phase order, for one request. -/
def phaseSamples (timing : ℕ → ℚ) : List Sample :=
  [⟨"http_req_blocked", timing 0⟩, ⟨"http_req_connecting", timing 1⟩,
   ⟨"http_req_tls_handshaking", timing 2⟩, ⟨"http_req_sending", timing 3⟩,
   ⟨"http_req_waiting", timing 4⟩, ⟨"http_req_receiving", timing 5⟩]

/-- Outcome of one HTTP call at the network level: a delivered response
with some status, or a network failure after `phasesDone` completed phases. -/
inductive ReqOutcome where
  | completed (status : ℕ)
  | failedAt (phasesDone : ℕ)
deriving Repr, DecidableEq

/-- Modelled from the spec: the samples appended by one request() call —
one timing sample per completed phase plus one count-increment sample for
the total-requests counter, unconditionally; on network failure the
timing samples cover the phases up to the failure point and the failure
flag is set. -/
def requestSamples (o : ReqOutcome) (timing : ℕ → ℚ) : List Sample :=
  match o with
  | .completed _ =>
      phaseSamples timing ++ [⟨"http_reqs", 1⟩, ⟨"http_req_failed", 0⟩]
  | .failedAt k =>
      (phaseSamples timing).take k ++ [⟨"http_reqs", 1⟩, ⟨"http_req_failed", 1⟩]

/-- Number of total-requests count samples in a sample list. -/
def httpReqsCount (l : List Sample) : ℕ :=
  (l.filter (fun s => s.metric == "http_reqs")).length

/-- Number of phase-timing samples in a sample list. -/
def timingCount (l : List Sample) : ℕ :=
  (l.filter (fun s => phaseNames.contains s.metric)).length

/-- Modelled from the spec: a run of k iterations, each issuing one HTTP
request with outcome `o`, appending each call's samples to the sink. -/
def runIterations : ℕ → ReqOutcome → (ℕ → ℚ) → List Sample → List Sample
  | 0, _, _, sink => sink
  | k + 1, o, timing, sink => runIterations k o timing (sink ++ requestSamples o timing)

theorem httpReqsCount_append (l₁ l₂ : List Sample) :
    httpReqsCount (l₁ ++ l₂) = httpReqsCount l₁ + httpReqsCount l₂ := by
  simp [httpReqsCount, List.filter_append]

theorem httpReqsCount_requestSamples (o : ReqOutcome) (timing : ℕ → ℚ) :
    httpReqsCount (requestSamples o timing) = 1 := by
  cases o with
  | completed s => simp [requestSamples, httpReqsCount, phaseSamples]
  | failedAt k =>
    rw [requestSamples, httpReqsCount, List.filter_append]
    have hnone : List.filter (fun s => s.metric == "http_reqs")
        ((phaseSamples timing).take k) = [] := by
      rw [List.filter_eq_nil_iff]
      intro s hs
      have hmem : s ∈ phaseSamples timing := List.take_subset k _ hs
      simp only [phaseSamples, List.mem_cons, List.not_mem_nil, or_false] at hmem
      rcases hmem with rfl | rfl | rfl | rfl | rfl | rfl <;> simp
    simp [hnone]

theorem timingCount_requestSamples (o : ReqOutcome) (timing : ℕ → ℚ) :
    timingCount (requestSamples o timing) =
      match o with
      | .completed _ => phaseNames.length
      | .failedAt k => min k phaseNames.length := by
  cases o with
  | completed s =>
    simp [requestSamples, timingCount, phaseSamples, phaseNames]
  | failedAt k =>
    rw [requestSamples, timingCount, List.filter_append]
    have hall : List.filter (fun s => phaseNames.contains s.metric)
        ((phaseSamples timing).take k) = (phaseSamples timing).take k := by
      rw [List.filter_eq_self]
      intro s hs
      have hmem : s ∈ phaseSamples timing := List.take_subset k _ hs
      simp only [phaseSamples, List.mem_cons, List.not_mem_nil, or_false] at hmem
      rcases hmem with rfl | rfl | rfl | rfl | rfl | rfl <;> simp [phaseNames]
    have htail : List.filter (fun s => phaseNames.contains s.metric)
        [(⟨"http_reqs", 1⟩ : Sample), ⟨"http_req_failed", 1⟩] = [] := by decide
    rw [hall, htail]
    simp [List.length_take, phaseSamples, phaseNames]

theorem httpReqsCount_runIterations (k : ℕ) (o : ReqOutcome) (timing : ℕ → ℚ)
    (sink : List Sample) :
    httpReqsCount (runIterations k o timing sink) = httpReqsCount sink + k := by
  induction k generalizing sink with
  | zero => simp [runIterations]
  | succ k ih =>
    rw [runIterations, ih, httpReqsCount_append, httpReqsCount_requestSamples]
    omega

/- ===================== Claim C7 ===================== -/

/-- Claim C7: every request() call appends exactly one count-increment
sample for the total-requests counter, unconditionally — on success with
one timing sample per phase, on network failure with timing samples for
the phases completed up to the failure point — so a run of k iterations
each issuing one request leaves the http_reqs counter at exactly k past
its starting value, hence at least k. -/
theorem http_request_always_counted (status j k : ℕ) (timing : ℕ → ℚ) :
    httpReqsCount (requestSamples (.completed status) timing) = 1 ∧
    httpReqsCount (requestSamples (.failedAt j) timing) = 1 ∧
    timingCount (requestSamples (.completed status) timing) = phaseNames.length ∧
    timingCount (requestSamples (.failedAt j) timing) = min j phaseNames.length ∧
    httpReqsCount (runIterations k (.completed status) timing []) = k ∧
    k ≤ httpReqsCount (runIterations k (.completed status) timing []) := by
  refine ⟨httpReqsCount_requestSamples _ timing, httpReqsCount_requestSamples _ timing,
    timingCount_requestSamples (.completed status) timing,
    timingCount_requestSamples (.failedAt j) timing, ?_, ?_⟩
  · rw [httpReqsCount_runIterations]; simp [httpReqsCount]
  · rw [httpReqsCount_runIterations]; simp [httpReqsCount]

/- ===================== Script-level JSON model ===================== -/

/-- The pizza field of a parsed response body, as the scripts access it:
missing (undefined), JSON null, or an object whose name and ingredients
fields may each be present or absent. -/
inductive PizzaField where
  | absent
  | jnull
  | pobj (name : Option String) (ingredients : Option (List String))
deriving Repr, DecidableEq

/-- A response body at the iteration function's interface: either not
parseable as JSON (res.json() raises), or parsed JSON with its pizza field. -/
inductive BodyData where
  | notJson
  | json (pizza : PizzaField)
deriving Repr, DecidableEq

/-- The response object the iteration functions receive: status code and
lazily-parsed body. -/
structure JsResponse where
  status : ℕ
  body : BodyData
deriving Repr, DecidableEq

/-- Errors raised inside an iteration: res.json() on a non-JSON body, or
property access on undefined/null. -/
inductive JsError where
  | parseError
  | typeError
deriving Repr, DecidableEq

/-- res.json(): raises on a non-JSON body, otherwise yields the parsed
object (represented by its pizza field). -/
def resJson (r : JsResponse) : Except JsError PizzaField :=
  match r.body with
  | .notJson => .error .parseError
  | .json p => .ok p

/-- Property access res.json().pizza.name — raises a TypeError when the
pizza field is undefined or null. -/
def pizzaName (p : PizzaField) : Except JsError (Option String) :=
  match p with
  | .absent => .error .typeError
  | .jnull => .error .typeError
  | .pobj n _ => .ok n

/-- Property access res.json().pizza.ingredients — raises a TypeError when
the pizza field is undefined or null. -/
def pizzaIngredients (p : PizzaField) : Except JsError (Option (List String)) :=
  match p with
  | .absent => .error .typeError
  | .jnull => .error .typeError
  | .pobj _ i => .ok i

/-- Property access ....ingredients.length — raises a TypeError when the
ingredients field is undefined. -/
def ingredientsLength (i : Option (List String)) : Except JsError ℕ :=
  match i with
  | none => .error .typeError
  | some l => .ok l.length

/-- JavaScript truthiness of the pizza field: undefined and null are
falsy, any object is truthy. -/
def pizzaTruthy (p : PizzaField) : Bool :=
  match p with
  | .absent => false
  | .jnull => false
  | .pobj _ _ => true

/-- Whether a status code is a 2xx success. -/
def is2xx (s : ℕ) : Bool :=
  decide (200 ≤ s) && decide (s < 300)

/- ===================== Claim C8 ===================== -/

/-- Outcome of one HTTP call at the transport level, for the request()
error-containment property: a delivered response, or a network-level
failure (timeout, connection refused, TLS failure). -/
inductive NetOutcome where
  | delivered (status : ℕ) (body : BodyData)
  | timeout
  | connectionRefused
  | tlsFailure
deriving Repr, DecidableEq

/-- Modelled from the spec: request() never propagates a network-level
failure as an uncaught error; such a failure is surfaced to the iteration
function as an absent response (status 0, no parseable body). -/
def httpRequest (o : NetOutcome) : Except String JsResponse :=
  .ok (match o with
       | .delivered s b => ⟨s, b⟩
       | .timeout => ⟨0, .notJson⟩
       | .connectionRefused => ⟨0, .notJson⟩
       | .tlsFailure => ⟨0, .notJson⟩)

/-- Claim C8: a network-level failure never propagates out of request()
as an uncaught error — every outcome yields a response, network failures
yield the absent (status 0, non-2xx) response — and a malformed body is
an error only at the point where res.json() is called, not at request
time. -/
theorem request_error_containment (o : NetOutcome) (status : ℕ) :
    (httpRequest o).isOk = true ∧
    httpRequest .timeout = .ok ⟨0, .notJson⟩ ∧
    httpRequest .connectionRefused = .ok ⟨0, .notJson⟩ ∧
    httpRequest .tlsFailure = .ok ⟨0, .notJson⟩ ∧
    is2xx 0 = false ∧
    httpRequest (.delivered status .notJson) = .ok ⟨status, .notJson⟩ ∧
    resJson ⟨status, .notJson⟩ = .error .parseError := by
  refine ⟨?_, rfl, rfl, rfl, rfl, rfl, rfl⟩
  cases o <;> rfl

/- ===================== Scheduler ramp-down step relation ===================== -/

/-- The execution-local state of one VirtualUserExecution: whether it is
inside an iteration, whether an HTTP request is in flight, and how many
requests it has started and completed. -/
structure VU where
  midIter : Bool
  inFlight : Bool
  reqsStarted : ℕ
  reqsCompleted : ℕ
deriving Repr, DecidableEq

/-- Scheduler state: the pool of active executions and the retired ones. -/
structure SchedState where
  active : List VU
  retired : List VU
deriving Repr, DecidableEq

/-- Modelled from the spec: the cooperative scheduling steps of the
Virtual User Scheduler.  An execution's requests start and finish strictly
inside its iteration, and `retire` is enabled only at an iteration
boundary — retiring never interrupts an iteration mid-flight (graceful
ramp-down). -/
inductive SchedStep : SchedState → SchedState → Prop where
  | spawn (s : SchedState) :
      SchedStep s ⟨s.active ++ [⟨false, false, 0, 0⟩], s.retired⟩
  | beginIter (l r ret : List VU) (v : VU) (h : v.midIter = false) :
      SchedStep ⟨l ++ v :: r, ret⟩ ⟨l ++ {v with midIter := true} :: r, ret⟩
  | beginReq (l r ret : List VU) (v : VU) (h1 : v.midIter = true)
      (h2 : v.inFlight = false) :
      SchedStep ⟨l ++ v :: r, ret⟩
        ⟨l ++ {v with inFlight := true, reqsStarted := v.reqsStarted + 1} :: r, ret⟩
  | endReq (l r ret : List VU) (v : VU) (h : v.inFlight = true) :
      SchedStep ⟨l ++ v :: r, ret⟩
        ⟨l ++ {v with inFlight := false, reqsCompleted := v.reqsCompleted + 1} :: r, ret⟩
  | endIter (l r ret : List VU) (v : VU) (h1 : v.midIter = true)
      (h2 : v.inFlight = false) :
      SchedStep ⟨l ++ v :: r, ret⟩ ⟨l ++ {v with midIter := false} :: r, ret⟩
  | retire (l r ret : List VU) (v : VU) (h : v.midIter = false) :
      SchedStep ⟨l ++ v :: r, ret⟩ ⟨l ++ r, ret ++ [v]⟩

/-- The scheduler's initial state: no executions. -/
def initSched : SchedState := ⟨[], []⟩

/-- A scheduler state reachable from the initial state by scheduling steps. -/
def Reachable (s : SchedState) : Prop :=
  Relation.ReflTransGen SchedStep initSched s

/-- Per-execution well-formedness: a request is only in flight inside an
iteration, and the started count exceeds the completed count exactly by
the in-flight request. -/
def VUwf (v : VU) : Prop :=
  (v.inFlight = true → v.midIter = true) ∧
  v.reqsStarted = v.reqsCompleted + (if v.inFlight = true then 1 else 0)

/-- Scheduler invariant: active executions are well-formed; retired
executions are at an iteration boundary, have nothing in flight, and have
completed every request they started. -/
def SchedInv (s : SchedState) : Prop :=
  (∀ v ∈ s.active, VUwf v) ∧
  (∀ v ∈ s.retired, v.midIter = false ∧ v.inFlight = false ∧
    v.reqsStarted = v.reqsCompleted)

theorem schedInv_init : SchedInv initSched := by
  constructor <;> intro v hv <;> simp [initSched] at hv

theorem schedInv_step {s s' : SchedState} (hinv : SchedInv s)
    (hstep : SchedStep s s') : SchedInv s' := by
  obtain ⟨hact, hret⟩ := hinv
  cases hstep with
  | spawn s =>
    refine ⟨?_, hret⟩
    intro x hx
    rcases List.mem_append.mp hx with hxl | hxc
    · exact hact x hxl
    · simp only [List.mem_singleton] at hxc
      subst hxc
      exact ⟨by simp, by simp⟩
  | beginIter l r ret v h =>
    refine ⟨?_, hret⟩
    intro x hx
    rcases List.mem_append.mp hx with hxl | hxc
    · exact hact x (List.mem_append.mpr (Or.inl hxl))
    · rcases List.mem_cons.mp hxc with rfl | hxr
      · have hv := hact v (List.mem_append.mpr (Or.inr (List.mem_cons_self v r)))
        obtain ⟨_, hv2⟩ := hv
        exact ⟨fun _ => rfl, hv2⟩
      · exact hact x (List.mem_append.mpr (Or.inr (List.mem_cons_of_mem v hxr)))
  | beginReq l r ret v h1 h2 =>
    refine ⟨?_, hret⟩
    intro x hx
    rcases List.mem_append.mp hx with hxl | hxc
    · exact hact x (List.mem_append.mpr (Or.inl hxl))
    · rcases List.mem_cons.mp hxc with rfl | hxr
      · have hv := hact v (List.mem_append.mpr (Or.inr (List.mem_cons_self v r)))
        obtain ⟨_, hv2⟩ := hv
        rw [h2] at hv2
        simp only [VUwf, if_true, if_false] at hv2 ⊢
        exact ⟨fun _ => h1, by simp at hv2; omega⟩
      · exact hact x (List.mem_append.mpr (Or.inr (List.mem_cons_of_mem v hxr)))
  | endReq l r ret v h =>
    refine ⟨?_, hret⟩
    intro x hx
    rcases List.mem_append.mp hx with hxl | hxc
    · exact hact x (List.mem_append.mpr (Or.inl hxl))
    · rcases List.mem_cons.mp hxc with rfl | hxr
      · have hv := hact v (List.mem_append.mpr (Or.inr (List.mem_cons_self v r)))
        obtain ⟨_, hv2⟩ := hv
        rw [h] at hv2
        simp only [VUwf, if_true, if_false] at hv2 ⊢
        constructor
        · intro hcontra; exact absurd hcontra (by simp)
        · simp at hv2 ⊢; omega
      · exact hact x (List.mem_append.mpr (Or.inr (List.mem_cons_of_mem v hxr)))
  | endIter l r ret v h1 h2 =>
    refine ⟨?_, hret⟩
    intro x hx
    rcases List.mem_append.mp hx with hxl | hxc
    · exact hact x (List.mem_append.mpr (Or.inl hxl))
    · rcases List.mem_cons.mp hxc with rfl | hxr
      · have hv := hact v (List.mem_append.mpr (Or.inr (List.mem_cons_self v r)))
        obtain ⟨_, hv2⟩ := hv
        refine ⟨fun hcontra => ?_, hv2⟩
        · exact absurd (hcontra : ({v with midIter := false}).inFlight = true)
            (by simp [h2])
      · exact hact x (List.mem_append.mpr (Or.inr (List.mem_cons_of_mem v hxr)))
  | retire l r ret v h =>
    constructor
    · intro x hx
      rcases List.mem_append.mp hx with hxl | hxr
      · exact hact x (List.mem_append.mpr (Or.inl hxl))
      · exact hact x (List.mem_append.mpr (Or.inr (List.mem_cons_of_mem v hxr)))
    · intro x hx
      rcases List.mem_append.mp hx with hxl | hxc
      · exact hret x hxl
      · simp only [List.mem_singleton] at hxc
        rw [hxc]
        have hv := hact v (List.mem_append.mpr (Or.inr (List.mem_cons_self v r)))
        obtain ⟨hv1, hv2⟩ := hv
        have hif : v.inFlight = false := by
          cases hflag : v.inFlight
          · rfl
          · have hmid := hv1 hflag
            rw [h] at hmid
            exact absurd hmid (by simp)
        rw [hif] at hv2
        simp at hv2
        exact ⟨h, hif, hv2⟩

theorem schedInv_reachable {s : SchedState} (h : Reachable s) : SchedInv s := by
  induction h with
  | refl => exact schedInv_init
  | tail _ hstep ih => exact schedInv_step ih hstep

/-- Total number of completed HTTP requests recorded across all
executions, active and retired. -/
def totalCompleted (s : SchedState) : ℕ :=
  ((s.active ++ s.retired).map VU.reqsCompleted).sum

/-- Number of retired executions that had started at least one request. -/
def retiredStarted (s : SchedState) : ℕ :=
  (s.retired.filter (fun v => decide (0 < v.reqsStarted))).length

theorem count_le_sum (L : List VU)
    (h : ∀ v ∈ L, 0 < v.reqsStarted → 1 ≤ v.reqsCompleted) :
    (L.filter (fun v => decide (0 < v.reqsStarted))).length ≤
      (L.map VU.reqsCompleted).sum := by
  induction L with
  | nil => simp
  | cons v t ih =>
    have iht : (t.filter (fun v => decide (0 < v.reqsStarted))).length ≤
        (t.map VU.reqsCompleted).sum :=
      ih (fun w hw => h w (List.mem_cons_of_mem v hw))
    simp only [List.filter_cons, List.map_cons, List.sum_cons]
    by_cases hv : 0 < v.reqsStarted
    · have h1 := h v (List.mem_cons_self v t) hv
      simp [hv]
      omega
    · simp [hv]
      omega

/- ===================== Claim C6 ===================== -/

/-- Claim C6: in every reachable scheduler state, every retired execution
was retired at an iteration boundary with no request in flight (no
iteration is interrupted mid-flight during ramp-down), and the number of
completed HTTP requests recorded is at least the number of retired
executions that had started a request. -/
theorem rampdown_never_truncates (s : SchedState) (h : Reachable s) :
    s.retired.all (fun v => !v.midIter && !v.inFlight) = true ∧
    retiredStarted s ≤ totalCompleted s := by
  have hinv := schedInv_reachable h
  obtain ⟨hact, hret⟩ := hinv
  constructor
  · rw [List.all_eq_true]
    intro v hv
    obtain ⟨h1, h2, _⟩ := hret v hv
    simp [h1, h2]
  · have hcond : ∀ v ∈ s.retired, 0 < v.reqsStarted → 1 ≤ v.reqsCompleted := by
      intro v hv hp
      have h3 := (hret v hv).2.2
      omega
    have h1 := count_le_sum s.retired hcond
    calc retiredStarted s ≤ (s.retired.map VU.reqsCompleted).sum := h1
      _ ≤ totalCompleted s := by
          rw [totalCompleted, List.map_append, List.sum_append]
          omega

/-- Witness for C6: the state reached by spawning one execution, running
one full iteration with one request, and retiring it; one retired
execution that started a request, one completed request. -/
theorem rampdown_never_truncates_witness :
    (SchedState.mk [] [⟨false, false, 1, 1⟩]).retired.all
      (fun v => !v.midIter && !v.inFlight) = true ∧
    retiredStarted ⟨[], [⟨false, false, 1, 1⟩]⟩ ≤
      totalCompleted ⟨[], [⟨false, false, 1, 1⟩]⟩ :=
  rampdown_never_truncates ⟨[], [⟨false, false, 1, 1⟩]⟩
    (Relation.ReflTransGen.refl
      |>.tail (SchedStep.spawn ⟨[], []⟩)
      |>.tail (SchedStep.beginIter [] [] [] ⟨false, false, 0, 0⟩ rfl)
      |>.tail (SchedStep.beginReq [] [] [] ⟨true, false, 0, 0⟩ rfl rfl)
      |>.tail (SchedStep.endReq [] [] [] ⟨true, true, 1, 0⟩ rfl)
      |>.tail (SchedStep.endIter [] [] [] ⟨true, false, 1, 1⟩ rfl rfl)
      |>.tail (SchedStep.retire [] [] [] ⟨false, false, 1, 1⟩ rfl))

/- ===================== Script iteration functions (embedded from source) ===================== -/

/-- The iteration function of 02.stages.js, embedded from source: check
status === 200, then log res.json().pizza.name and
res.json().pizza.ingredients.length unguarded.  Returns the samples
recorded before any raise and the error, if one was raised. -/
def stagesIteration (res : JsResponse) : List Sample × Option JsError :=
  let checks : List Sample := [⟨"checks", if res.status = 200 then 1 else 0⟩]
  match resJson res with
  | .error e => (checks, some e)
  | .ok p =>
    match pizzaName p with
    | .error e => (checks, some e)
    | .ok _ =>
      match pizzaIngredients p with
      | .error e => (checks, some e)
      | .ok ing =>
        match ingredientsLength ing with
        | .error e => (checks, some e)
        | .ok _ => (checks, none)

/-- The iteration function of 05.thresholds, embedded from source: check
status === 200, then const pizzaData = res.json().pizza; const
ingredientCount = pizzaData.ingredients.length (both unguarded), then
pizzas.add(1) and ingredients.add(ingredientCount). -/
def thresholdsIteration (res : JsResponse) : List Sample × Option JsError :=
  let checks : List Sample := [⟨"checks", if res.status = 200 then 1 else 0⟩]
  match resJson res with
  | .error e => (checks, some e)
  | .ok p =>
    match pizzaIngredients p with
    | .error e => (checks, some e)
    | .ok ing =>
      match ingredientsLength ing with
      | .error e => (checks, some e)
      | .ok n =>
        (checks ++ [⟨"quickpizza_number_of_pizzas", 1⟩,
                    ⟨"quickpizza_ingredients", (n : ℚ)⟩], none)

/-- The getPizza function of 07.scenarios, embedded from source: same
statement order as the 05.thresholds iteration — check, unguarded
res.json().pizza.ingredients.length, then the two custom-metric adds. -/
def scenariosIteration (res : JsResponse) : List Sample × Option JsError :=
  let checks : List Sample := [⟨"checks", if res.status = 200 then 1 else 0⟩]
  match resJson res with
  | .error e => (checks, some e)
  | .ok p =>
    match pizzaIngredients p with
    | .error e => (checks, some e)
    | .ok ing =>
      match ingredientsLength ing with
      | .error e => (checks, some e)
      | .ok n =>
        (checks ++ [⟨"quickpizza_number_of_pizzas", 1⟩,
                    ⟨"quickpizza_ingredients", (n : ℚ)⟩], none)

/-- The iteration function of 04.metrics, embedded from source: four
check predicates evaluated in order (the second to fourth touch
res.json(), the third also .pizza.name), then the guarded block
if (res.status === 200 && res.json().pizza), inside which
pizza.ingredients.length is computed before pizzas.add(1) and
ingredients.add(ingredientCount). -/
def metricsIteration (res : JsResponse) : List Sample × Option JsError :=
  let c1 : Sample := ⟨"checks", if res.status = 200 then 1 else 0⟩
  match resJson res with
  | .error e => ([c1], some e)
  | .ok p =>
    let c2 : Sample := ⟨"checks", if p ≠ PizzaField.absent then 1 else 0⟩
    match pizzaName p with
    | .error e => ([c1, c2], some e)
    | .ok n =>
      let c3 : Sample := ⟨"checks", if n.isSome then 1 else 0⟩
      match pizzaIngredients p with
      | .error e => ([c1, c2, c3], some e)
      | .ok ing =>
        let c4 : Sample := ⟨"checks",
          match ing with
          | none => 0
          | some l => if 0 < l.length then 1 else 0⟩
        let checks : List Sample := [c1, c2, c3, c4]
        if res.status = 200 ∧ pizzaTruthy p = true then
          match ingredientsLength ing with
          | .error e => (checks, some e)
          | .ok k =>
            (checks ++ [⟨"quickpizza_number_of_pizzas", 1⟩,
                        ⟨"quickpizza_ingredients", (k : ℚ)⟩], none)
        else (checks, none)

/-- The custom-metric samples (quickpizza_number_of_pizzas,
quickpizza_ingredients) recorded by one iteration. -/
def customSamples (out : List Sample × Option JsError) : List Sample :=
  out.1.filter (fun s =>
    s.metric == "quickpizza_number_of_pizzas" ||
    s.metric == "quickpizza_ingredients")

/- ===================== Claim C9 ===================== -/

/-- Claim C9: at a response with status 500 and a non-JSON body, and at a
status-200 JSON response without a pizza field, the iteration functions
of the stages, thresholds and scenarios scripts all raise at the
unguarded res.json().pizza access that follows the check, so the
iteration records no custom-metric samples and fails instead of
completing normally. -/
theorem unguarded_pizza_access_raises :
    ((stagesIteration ⟨500, .notJson⟩).2 = some .parseError ∧
     customSamples (stagesIteration ⟨500, .notJson⟩) = [] ∧
     (thresholdsIteration ⟨500, .notJson⟩).2 = some .parseError ∧
     customSamples (thresholdsIteration ⟨500, .notJson⟩) = [] ∧
     (scenariosIteration ⟨500, .notJson⟩).2 = some .parseError ∧
     customSamples (scenariosIteration ⟨500, .notJson⟩) = []) ∧
    ((stagesIteration ⟨200, .json .absent⟩).2 = some .typeError ∧
     customSamples (stagesIteration ⟨200, .json .absent⟩) = [] ∧
     (thresholdsIteration ⟨200, .json .absent⟩).2 = some .typeError ∧
     customSamples (thresholdsIteration ⟨200, .json .absent⟩) = [] ∧
     (scenariosIteration ⟨200, .json .absent⟩).2 = some .typeError ∧
     customSamples (scenariosIteration ⟨200, .json .absent⟩) = []) := by
  decide

/- ===================== Claim C10 ===================== -/

/-- Whether one 04.metrics iteration updated the custom metrics. -/
def metricsUpdated (r : JsResponse) : Bool :=
  !(customSamples (metricsIteration r)).isEmpty

/-- The responses on which 04.metrics actually updates its custom
metrics: status 200 and a pizza object carrying an ingredients array. -/
def successfulPizza (r : JsResponse) : Bool :=
  (r.status == 200) &&
    (match r.body with
     | .json (.pobj _ (some _)) => true
     | _ => false)

/-- Samples recorded by running the 04.metrics iteration over a sequence
of responses. -/
def runMetrics : List JsResponse → List Sample
  | [] => []
  | r :: t => (metricsIteration r).1 ++ runMetrics t

/-- Accumulated value of the quickpizza_number_of_pizzas counter: each
update adds 1, so the total is the number of its samples. -/
def pizzasTotal (l : List Sample) : ℕ :=
  (l.filter (fun s => s.metric == "quickpizza_number_of_pizzas")).length

/-- Claim C10 counterexample: a status-200 response whose truthy pizza
object has no ingredients array; the guard res.status === 200 &&
res.json().pizza holds, yet the iteration raises at
pizza.ingredients.length before pizzas.add(1), so the custom metrics are
not updated. -/
theorem metrics_update_counterexample :
    (JsResponse.mk 200 (.json (.pobj (some "VeggieDream") none))).status = 200 ∧
    pizzaTruthy (PizzaField.pobj (some "VeggieDream") none) = true ∧
    customSamples (metricsIteration ⟨200, .json (.pobj (some "VeggieDream") none)⟩) = [] ∧
    (metricsIteration ⟨200, .json (.pobj (some "VeggieDream") none)⟩).2 =
      some .typeError := by
  decide

theorem pizzasTotal_append (l₁ l₂ : List Sample) :
    pizzasTotal (l₁ ++ l₂) = pizzasTotal l₁ + pizzasTotal l₂ := by
  simp [pizzasTotal, List.filter_append]

theorem metricsIteration_cases (r : JsResponse) :
    metricsUpdated r = successfulPizza r ∧
    pizzasTotal (metricsIteration r).1 = (if successfulPizza r = true then 1 else 0) := by
  obtain ⟨status, body⟩ := r
  rcases body with _ | p
  · by_cases hs : status = 200 <;>
      simp [metricsUpdated, successfulPizza, metricsIteration, resJson,
        pizzaName, pizzaIngredients, ingredientsLength, pizzaTruthy,
        customSamples, pizzasTotal, hs]
  · rcases p with _ | _ | ⟨n, ing⟩
    · by_cases hs : status = 200 <;>
        simp [metricsUpdated, successfulPizza, metricsIteration, resJson,
          pizzaName, pizzaIngredients, ingredientsLength, pizzaTruthy,
          customSamples, pizzasTotal, hs]
    · by_cases hs : status = 200 <;>
        simp [metricsUpdated, successfulPizza, metricsIteration, resJson,
          pizzaName, pizzaIngredients, ingredientsLength, pizzaTruthy,
          customSamples, pizzasTotal, hs]
    · rcases ing with _ | l <;> by_cases hs : status = 200 <;>
        simp [metricsUpdated, successfulPizza, metricsIteration, resJson,
          pizzaName, pizzaIngredients, ingredientsLength, pizzaTruthy,
          customSamples, pizzasTotal, hs]

/-- Claim C10 (amended): the 04.metrics custom metrics are updated
exactly when the response has status 200 and a truthy pizza object that
carries an ingredients array (without one, the iteration raises at
pizza.ingredients.length before the update); consequently, at every
point of a run the quickpizza_number_of_pizzas counter equals the number
of such successful pizza responses observed so far and never exceeds the
number of requests issued. -/
theorem metrics_counter_counts_success (r : JsResponse) (rs : List JsResponse) :
    metricsUpdated r = successfulPizza r ∧
    pizzasTotal (runMetrics rs) = (rs.filter (fun x => successfulPizza x)).length ∧
    (rs.filter (fun x => successfulPizza x)).length ≤ rs.length := by
  refine ⟨(metricsIteration_cases r).1, ?_, List.length_filter_le _ rs⟩
  induction rs with
  | nil => simp [runMetrics, pizzasTotal]
  | cons x t ih =>
    rw [runMetrics, pizzasTotal_append, (metricsIteration_cases x).2, ih]
    by_cases hx : successfulPizza x = true
    · simp [hx, List.filter_cons]
      omega
    · simp [hx, List.filter_cons]
